import Mathlib

/-!
Verification of the AgentAI project workflow/approval core.

The dashboard projection (`populateKanbanBoard`) is embedded directly from
the frontend source (`AgentAIInterface.populateKanbanBoard`).  The backend
Workflow Engine / Approval Gateway / Record Store (`web/app.py`) is not part
of the corpus; those operations are modelled from the specification text and
are marked `Modelled from the spec:` in their doc comments.
-/

set_option linter.unusedVariables false

/-! ## Definitions: the dashboard projection embedded from the source, and
the workflow/approval core modelled from the specification -/

/-- Entity: a Project record (fields relevant to the workflow core). -/
structure Project where
  id : String
  project_name : String
  status : String
  created_at : Nat
deriving DecidableEq

/-- Entity: a Workflow record, one-to-one with a Project. -/
structure Workflow where
  project_id : String
  current_phase : String
  status : String
  progress : Nat
  created_at : Nat
  updated_at : Nat
deriving DecidableEq

/-- An entry of an Analysis rework history. -/
structure ReworkEntry where
  action : String
  actor : String
  feedback : String
  timestamp : Nat
deriving DecidableEq

/-- Entity: an Analysis record produced by the external agent. -/
structure Analysis where
  id : String
  project_id : String
  content : String
  status : String
  rework_history : List ReworkEntry
  timestamp : Nat
deriving DecidableEq

/-- JavaScript `a || b` on an optional string: `undefined` and the empty
string (the falsy string) fall through to the default. -/
def jsOr : Option String → String → String
  | none, d => d
  | some s, d => if s = "" then d else s

/-- The phase the dashboard uses for a project: `workflow?.current_phase ||
'Requirements Analysis'` (source line 122). -/
def effectivePhase (workflow : Option Workflow) : String :=
  jsOr (workflow.map Workflow.current_phase) "Requirements Analysis"

/-- The `status` local computed (but not used for column placement) in
`populateKanbanBoard`, source lines 113-120. -/
def derivedStatus (workflow : Option Workflow) (analysis : Option Analysis) : String :=
  let status := jsOr (workflow.map Workflow.status) "analyzing"
  match analysis with
  | some a =>
    if a.status = "pending" ∨ a.status = "rework" then "analysis_complete"
    else if a.status = "approved" then jsOr (workflow.map Workflow.status) "development"
    else status
  | none => status

/-- A kanban card: `{...project, workflow, analysis}` (source lines 125-133). -/
structure Card where
  project : Project
  workflow : Option Workflow
  analysis : Option Analysis
deriving DecidableEq

/-- The five kanban columns of the dashboard. -/
structure Kanban where
  requirements : List Card
  analysis : List Card
  development : List Card
  testing : List Card
  deployment : List Card
deriving DecidableEq

/-- Names of the five kanban columns. -/
inductive ColName where
  | requirements
  | analysis
  | development
  | testing
  | deployment
deriving DecidableEq

/-- Column selector. -/
def Kanban.col (k : Kanban) : ColName → List Card
  | .requirements => k.requirements
  | .analysis => k.analysis
  | .development => k.development
  | .testing => k.testing
  | .deployment => k.deployment

/-- The empty board (`columns` initialiser, source lines 99-105). -/
def emptyKanban : Kanban :=
  { requirements := [], analysis := [], development := [], testing := [], deployment := [] }

/-- The body of the `projects.forEach` loop of `populateKanbanBoard`
(source lines 108-135): find the project's workflow and analysis, then push
a card onto the column selected by the `if`/`else if` chain on
`currentPhase` (the computed `status` local, embedded as `derivedStatus`,
is not consulted by the chain). -/
def placeProject (workflows : List Workflow) (analyses : List Analysis)
    (k : Kanban) (project : Project) : Kanban :=
  let workflow := workflows.find? (fun w => w.project_id == project.id)
  let analysis := analyses.find? (fun a => a.project_id == project.id)
  let currentPhase := effectivePhase workflow
  let card : Card := { project := project, workflow := workflow, analysis := analysis }
  if currentPhase = "Requirements Analysis" then
    { k with requirements := k.requirements ++ [card] }
  else if currentPhase = "Human Approval" then
    { k with analysis := k.analysis ++ [card] }
  else if currentPhase = "Development" then
    { k with development := k.development ++ [card] }
  else if currentPhase = "Testing" then
    { k with testing := k.testing ++ [card] }
  else if currentPhase = "Deployment" ∨ workflow.map Workflow.status = some "completed" then
    { k with deployment := k.deployment ++ [card] }
  else k

/-- The dashboard projection `populateKanbanBoard(projects, workflows,
analyses)` restricted to its data part: the categorisation of projects into
the five columns (source lines 98-135; the subsequent DOM updates render
these lists verbatim). -/
def populateKanbanBoard (projects : List Project) (workflows : List Workflow)
    (analyses : List Analysis) : Kanban :=
  projects.foldl (placeProject workflows analyses) emptyKanban

/-- The column the `if`/`else if` chain selects for a given (optional)
workflow, or `none` when every branch fails. -/
def columnOf (workflow : Option Workflow) : Option ColName :=
  let currentPhase := effectivePhase workflow
  if currentPhase = "Requirements Analysis" then some .requirements
  else if currentPhase = "Human Approval" then some .analysis
  else if currentPhase = "Development" then some .development
  else if currentPhase = "Testing" then some .testing
  else if currentPhase = "Deployment" ∨ workflow.map Workflow.status = some "completed" then
    some .deployment
  else none

/-- Membership of a project in a column of a board. -/
def projIn (k : Kanban) (c : ColName) (p : Project) : Prop :=
  ∃ card ∈ k.col c, card.project = p

/-- The card built for a project by the loop body. -/
def mkCard (workflows : List Workflow) (analyses : List Analysis) (p : Project) : Card :=
  { project := p
    workflow := workflows.find? (fun w => w.project_id == p.id)
    analysis := analyses.find? (fun a => a.project_id == p.id) }

/-- The five phase names, in their fixed order (source line 237). -/
def phases : List String :=
  ["Requirements Analysis", "Human Approval", "Development", "Testing", "Deployment"]

/-- The error taxonomy of the core (spec section 7). -/
inductive Err where
  | NotFoundError
  | InvalidTransitionError
  | InvalidStateError
  | ValidationError
  | ConflictError
  | TimeoutError
deriving DecidableEq

/-- The persisted state: three keyed collections — projects (by id),
workflows (by project_id), analyses (by id, indexed by project_id). -/
structure Store where
  projects : List Project
  workflows : List Workflow
  analyses : List Analysis
deriving DecidableEq

/-- The store holding no records. -/
def emptyStore : Store := { projects := [], workflows := [], analyses := [] }

/-- The immediate successor of a phase in the fixed ordering
[Requirements Analysis, Human Approval, Development, Testing, Deployment]. -/
def nextPhase : String → Option String
  | "Requirements Analysis" => some "Human Approval"
  | "Human Approval" => some "Development"
  | "Development" => some "Testing"
  | "Testing" => some "Deployment"
  | _ => none

/-- Position of a phase in the fixed ordering (5 for a non-phase). -/
def phaseIdx : String → Nat
  | "Requirements Analysis" => 0
  | "Human Approval" => 1
  | "Development" => 2
  | "Testing" => 3
  | "Deployment" => 4
  | _ => 5

/-- Lookup of a project's workflow (workflows are keyed by project_id). -/
def findWorkflow (s : Store) (pid : String) : Option Workflow :=
  s.workflows.find? (fun w => w.project_id == pid)

/-- Lookup of an analysis by its id. -/
def findAnalysisById (s : Store) (aid : String) : Option Analysis :=
  s.analyses.find? (fun a => a.id == aid)

/-- Lookup of a project's current analysis (analyses are indexed by
project_id; one-to-one per active cycle). -/
def findAnalysisByProject (s : Store) (pid : String) : Option Analysis :=
  s.analyses.find? (fun a => a.project_id == pid)

/-- Modelled from the spec: `getWorkflow(projectId) -> Workflow | NotFound`
(spec section 4.1). -/
def getWorkflow (s : Store) (pid : String) : Except Err Workflow :=
  match findWorkflow s pid with
  | some w => .ok w
  | none => .error .NotFoundError

/-- Modelled from the spec: lookup of an Analysis by id, `NotFoundError`
when absent (spec sections 6 and 7). -/
def getAnalysis (s : Store) (aid : String) : Except Err Analysis :=
  match findAnalysisById s aid with
  | some a => .ok a
  | none => .error .NotFoundError

/-- The field updates a successful phase advance applies to a workflow:
the new phase, `updated_at`, and the loosely-correlated status (terminal
Deployment sets status completed; Human Approval re-entry sets status
analyzing; other advances leave it) — spec section 4.1. -/
def advanceWorkflow (w : Workflow) (target : String) (now : Nat) : Workflow :=
  { w with
    current_phase := target
    status :=
      if target = "Deployment" then "completed"
      else if target = "Human Approval" then "analyzing"
      else w.status
    updated_at := now }

/-- The store after a successful phase advance: the project's workflow is
replaced by its advanced version, everything else is untouched. -/
def advanceStore (s : Store) (pid target : String) (now : Nat) : Store :=
  { s with workflows :=
      s.workflows.map (fun v => if v.project_id == pid then advanceWorkflow v target now else v) }

/-- Modelled from the spec: `advancePhase(projectId, targetPhase)` of the
Workflow Engine (spec section 4.1, absent backend `web/app.py`): validates
that targetPhase is the immediate successor of current_phase in the fixed
ordering, or equals "Human Approval" (rework re-entry); fails with
`InvalidTransitionError` otherwise, `NotFoundError` when the project has no
workflow. -/
def advancePhase (s : Store) (pid target : String) (now : Nat) : Except Err Store :=
  match findWorkflow s pid with
  | none => .error .NotFoundError
  | some w =>
    if nextPhase w.current_phase = some target ∨ target = "Human Approval" then
      .ok (advanceStore s pid target now)
    else .error .InvalidTransitionError

/-- Modelled from the spec: project creation (spec sections 3 and 6, absent
backend): inserts a Project with a unique id (duplicate ids are rejected,
matching "id (opaque unique token)"). -/
def createProject (s : Store) (pid name : String) (now : Nat) :
    Except Err (Project × Store) :=
  if s.projects.any (fun p => p.id == pid) then .error .ConflictError
  else
    let p : Project := { id := pid, project_name := name, status := "submitted",
                         created_at := now }
    .ok (p, { s with projects := s.projects ++ [p] })

/-- Modelled from the spec: `createWorkflow(projectId)` (spec section 4.1,
absent backend): initializes phase=Requirements Analysis, status=analyzing,
progress=10; fails with `ConflictError` when a Workflow already exists for
projectId. -/
def createWorkflow (s : Store) (pid : String) (now : Nat) :
    Except Err (Workflow × Store) :=
  match findWorkflow s pid with
  | some _ => .error .ConflictError
  | none =>
    let w : Workflow := { project_id := pid, current_phase := "Requirements Analysis",
                          status := "analyzing", progress := 10, created_at := now,
                          updated_at := now }
    .ok (w, { s with workflows := s.workflows ++ [w] })

/-- Modelled from the spec: "record analysis result (invoked by the external
agent collaborator when analysis completes) → creates/updates Analysis, sets
status=pending" (spec section 6, absent backend).  Per the data-flow of
spec section 2 the agent-completion callback is also what moves the Workflow
to the Human Approval phase, so the operation advances the phase to
"Human Approval" (a first completion moves Requirements Analysis forward;
a rework regeneration re-enters via the back-edge).  A fresh analysis id
must be unique (spec section 3). -/
def recordAnalysisResult (s : Store) (pid aid content : String) (now : Nat) :
    Except Err Store :=
  match advancePhase s pid "Human Approval" now with
  | .error e => .error e
  | .ok s1 =>
    match findAnalysisByProject s1 pid with
    | some a =>
      .ok { s1 with analyses := s1.analyses.map (fun b =>
        if b.project_id == pid then
          { a with content := content, status := "pending", timestamp := now }
        else b) }
    | none =>
      if s1.analyses.any (fun b => b.id == aid) then .error .ConflictError
      else .ok { s1 with analyses := s1.analyses ++
        [{ id := aid, project_id := pid, content := content, status := "pending",
           rework_history := [], timestamp := now }] }

/-- Replace the analysis stored under an id. -/
def setAnalysis (s : Store) (aid : String) (a : Analysis) : Store :=
  { s with analyses := s.analyses.map (fun b => if b.id == aid then a else b) }

/-- Set a project's informational status string. -/
def setProjectStatus (s : Store) (pid st : String) : Store :=
  { s with projects := s.projects.map (fun p =>
      if p.id == pid then { p with status := st } else p) }

/-- Modelled from the spec: `submitDecision(analysisId, decision, feedback)`
of the Approval Gateway (spec section 4.2, absent backend).  approve sets
Analysis.status=approved and triggers `advancePhase(project_id,
"Development")`; reject sets status=rejected and records the rejection on
the Project; rework sets status=rework, appends a rework_history entry and
triggers `advancePhase(project_id, "Human Approval")`.  Fails with
`NotFoundError` for an unknown analysisId, `InvalidStateError` when the
status is not pending or rework, `ValidationError` for a malformed decision.
The three sub-mutations are atomic: when the workflow advance fails the
whole operation fails and no mutation is committed. -/
def submitDecision (s : Store) (aid decision feedback actor : String) (now : Nat) :
    Except Err (Analysis × Store) :=
  match findAnalysisById s aid with
  | none => .error .NotFoundError
  | some a =>
    if a.status = "pending" ∨ a.status = "rework" then
      if decision = "approve" then
        let a1 := { a with status := "approved" }
        match advancePhase (setAnalysis s aid a1) a.project_id "Development" now with
        | .ok s1 => .ok (a1, s1)
        | .error e => .error e
      else if decision = "reject" then
        let a1 := { a with status := "rejected" }
        .ok (a1, setProjectStatus (setAnalysis s aid a1) a.project_id "rejected")
      else if decision = "rework" then
        let a1 := { a with
          status := "rework"
          rework_history := a.rework_history ++
            [{ action := "rework", actor := actor, feedback := feedback,
               timestamp := now }] }
        match advancePhase (setAnalysis s aid a1) a.project_id "Human Approval" now with
        | .ok s1 => .ok (a1, s1)
        | .error e => .error e
      else .error .ValidationError
    else .error .InvalidStateError

/-- Modelled from the spec: "delete project → cascades to Workflow and all
Analysis history; fails with NotFoundError if absent" (spec section 6,
absent backend). -/
def deleteProject (s : Store) (pid : String) : Except Err Store :=
  if s.projects.any (fun p => p.id == pid) then
    .ok { projects := s.projects.filter (fun p => p.id != pid)
          workflows := s.workflows.filter (fun w => w.project_id != pid)
          analyses := s.analyses.filter (fun a => a.project_id != pid) }
  else .error .NotFoundError

/-- One externally triggered mutation of the store: the operations of the
external interface (spec section 6) plus the agent completion callbacks
that move a workflow through Development → Testing → Deployment
(spec section 2: the engine is advanced by agent completion callbacks and
human approval decisions; the Development target is reachable only through
an approve decision, and Human Approval only through analysis recording or
a rework decision). -/
inductive Step : Store → Store → Prop where
  | project (s s' : Store) (pid name : String) (now : Nat) (p : Project)
      (h : createProject s pid name now = .ok (p, s')) : Step s s'
  | workflow (s s' : Store) (pid : String) (now : Nat) (w : Workflow)
      (h : createWorkflow s pid now = .ok (w, s')) : Step s s'
  | record (s s' : Store) (pid aid content : String) (now : Nat)
      (h : recordAnalysisResult s pid aid content now = .ok s') : Step s s'
  | decision (s s' : Store) (aid d feedback actor : String) (now : Nat) (a : Analysis)
      (h : submitDecision s aid d feedback actor now = .ok (a, s')) : Step s s'
  | delete (s s' : Store) (pid : String)
      (h : deleteProject s pid = .ok s') : Step s s'
  | agent (s s' : Store) (pid target : String) (now : Nat)
      (ht : target = "Testing" ∨ target = "Deployment")
      (h : advancePhase s pid target now = .ok s') : Step s s'

/-- The reachable states of the core: everything obtainable from the empty
store by the external interface. -/
inductive Reachable : Store → Prop where
  | init : Reachable emptyStore
  | step {s s' : Store} : Reachable s → Step s s' → Reachable s'

/-- A list of records has pairwise-distinct keys. -/
def keyUniq {α : Type} (key : α → String) (l : List α) : Prop :=
  l.Pairwise (fun x y => key x ≠ key y)

/-- The per-analysis part of the invariant: the analysis's project has a
workflow whose phase agrees with the analysis status (a pending or rework
analysis is awaiting decision at Human Approval; an approved analysis has a
workflow advanced at least to Development). -/
def analysisWorkflowOk (workflows : List Workflow) (a : Analysis) : Prop :=
  ∃ w ∈ workflows, w.project_id = a.project_id ∧
    ((a.status = "pending" ∨ a.status = "rework") → w.current_phase = "Human Approval") ∧
    (a.status = "approved" →
      (w.current_phase = "Development" ∨ w.current_phase = "Testing" ∨
        w.current_phase = "Deployment"))

/-- The state invariant of the core, preserved by every external operation:
the three collections are properly keyed (at most one workflow per project,
analyses unique by id and one per project) and every analysis status agrees
with its project's workflow phase. -/
structure StoreInv (s : Store) : Prop where
  wfU : keyUniq Workflow.project_id s.workflows
  anIdU : keyUniq Analysis.id s.analyses
  anPidU : keyUniq Analysis.project_id s.analyses
  anWf : ∀ a ∈ s.analyses, analysisWorkflowOk s.workflows a

/-- The scenario project P1. -/
def demoProject : Project :=
  { id := "p1", project_name := "demo", status := "submitted", created_at := 0 }

/-- Store after createProject. -/
def demoStore1 : Store := { projects := [demoProject], workflows := [], analyses := [] }

/-- P1's freshly created workflow. -/
def demoWorkflowRA : Workflow :=
  { project_id := "p1", current_phase := "Requirements Analysis", status := "analyzing",
    progress := 10, created_at := 0, updated_at := 0 }

/-- Store after createWorkflow. -/
def demoStore2 : Store :=
  { projects := [demoProject], workflows := [demoWorkflowRA], analyses := [] }

/-- P1's workflow after the agent posts its analysis. -/
def demoWorkflowHA : Workflow := advanceWorkflow demoWorkflowRA "Human Approval" 1

/-- The pending analysis A1 posted by the agent. -/
def demoAnalysis : Analysis :=
  { id := "a1", project_id := "p1", content := "c", status := "pending",
    rework_history := [], timestamp := 1 }

/-- Store after recordAnalysisResult. -/
def demoStore3 : Store :=
  { projects := [demoProject], workflows := [demoWorkflowHA], analyses := [demoAnalysis] }

/-- A1 once approved. -/
def demoApproved : Analysis := { demoAnalysis with status := "approved" }

/-- Store after submitDecision(A1, approve). -/
def demoStore4 : Store :=
  advanceStore (setAnalysis demoStore3 "a1" demoApproved) "p1" "Development" 2

/-- A workflow sitting at Development, for dashboard checks. -/
def demoWorkflowDev : Workflow :=
  { project_id := "p1", current_phase := "Development", status := "running",
    progress := 60, created_at := 0, updated_at := 0 }

/-- A workflow with an off-enum (but truthy) phase, for the dropped-card
check. -/
def demoWorkflowBad : Workflow :=
  { project_id := "p1", current_phase := "development", status := "running",
    progress := 60, created_at := 0, updated_at := 0 }

/-- A store holding an analysis whose project has no workflow. -/
def demoStoreNoWorkflow : Store :=
  { projects := [], workflows := [], analyses := [demoAnalysis] }

/-! ## Lemmas and theorems -/

lemma placeProject_col (workflows : List Workflow) (analyses : List Analysis)
    (k : Kanban) (p : Project) (c : ColName) :
    (placeProject workflows analyses k p).col c =
      if columnOf (workflows.find? (fun w => w.project_id == p.id)) = some c then
        k.col c ++ [mkCard workflows analyses p]
      else k.col c := by
  unfold placeProject columnOf mkCard
  cases c <;> simp only [Kanban.col] <;> split_ifs <;> simp_all [Kanban.col]

lemma foldl_place_col (workflows : List Workflow) (analyses : List Analysis)
    (ps : List Project) (c : ColName) :
    ∀ k : Kanban,
      ((ps.foldl (placeProject workflows analyses) k).col c) =
        k.col c ++
          (ps.filter (fun p =>
            columnOf (workflows.find? (fun w => w.project_id == p.id)) == some c)).map
            (mkCard workflows analyses) := by
  induction ps with
  | nil => intro k; simp
  | cons p ps ih =>
    intro k
    rw [List.foldl_cons, ih, List.filter_cons]
    by_cases h : columnOf (workflows.find? (fun w => w.project_id == p.id)) = some c
    · simp [h, placeProject_col, List.append_assoc]
    · simp [h, placeProject_col]

lemma projIn_populate (projects : List Project) (workflows : List Workflow)
    (analyses : List Analysis) (c : ColName) (p : Project) :
    projIn (populateKanbanBoard projects workflows analyses) c p ↔
      p ∈ projects ∧ columnOf (workflows.find? (fun w => w.project_id == p.id)) = some c := by
  unfold populateKanbanBoard projIn
  rw [foldl_place_col]
  constructor
  · rintro ⟨card, hmem, hproj⟩
    simp only [emptyKanban] at hmem
    rcases c <;> simp only [Kanban.col] at hmem <;>
    · simp only [List.nil_append, List.mem_map, List.mem_filter] at hmem
      obtain ⟨q, ⟨hq, hcol⟩, hcard⟩ := hmem
      have hqp : q = p := by rw [← hproj, ← hcard]; rfl
      subst hqp
      exact ⟨hq, by simpa using hcol⟩
  · rintro ⟨hp, hcol⟩
    refine ⟨mkCard workflows analyses p, ?_, rfl⟩
    rcases c <;> simp only [emptyKanban, Kanban.col, List.nil_append, List.mem_map,
      List.mem_filter] <;> exact ⟨p, ⟨hp, by simpa using hcol⟩, rfl⟩

lemma columnOf_eq_of_phase (w : Workflow) (h : w.current_phase = "Development") :
    columnOf (some w) = some ColName.development := by
  simp [columnOf, effectivePhase, jsOr, h]

lemma columnOf_none_phase :
    columnOf (none : Option Workflow) = some ColName.requirements := by
  simp [columnOf, effectivePhase, jsOr]

lemma columnOf_outside_phases (w : Workflow) (hphase : w.current_phase ∉ phases)
    (hempty : w.current_phase ≠ "") (hstatus : w.status ≠ "completed") :
    columnOf (some w) = none := by
  simp only [phases, List.mem_cons, List.not_mem_nil, or_false, not_or] at hphase
  obtain ⟨h1, h2, h3, h4, h5⟩ := hphase
  simp [columnOf, effectivePhase, jsOr, hempty, h1, h2, h3, h4, h5, hstatus]

/-- C1: on every input, the dashboard projection places each project in at
most one of the five kanban columns; the column is the one selected from the
project's workflow by the fixed priority chain on `current_phase`
(`columnOf`); in particular a project whose workflow has
`current_phase = "Development"` appears in the development column and in no
other column, for every combination of analyses. -/
theorem kanban_placement_unique_and_development (projects : List Project)
    (workflows : List Workflow) (analyses : List Analysis) (p : Project) :
    (∀ c₁ c₂ : ColName,
        projIn (populateKanbanBoard projects workflows analyses) c₁ p →
        projIn (populateKanbanBoard projects workflows analyses) c₂ p → c₁ = c₂) ∧
    (∀ c : ColName,
        projIn (populateKanbanBoard projects workflows analyses) c p ↔
          p ∈ projects ∧ columnOf (workflows.find? (fun w => w.project_id == p.id)) = some c) ∧
    (∀ w : Workflow, workflows.find? (fun w => w.project_id == p.id) = some w →
        w.current_phase = "Development" →
        (projIn (populateKanbanBoard projects workflows analyses) ColName.development p ↔
            p ∈ projects) ∧
        ∀ c : ColName, projIn (populateKanbanBoard projects workflows analyses) c p →
          c = ColName.development) := by
  refine ⟨?_, ?_, ?_⟩
  · intro c₁ c₂ h1 h2
    rw [projIn_populate] at h1 h2
    have := h1.2.symm.trans h2.2
    injection this
  · intro c; exact projIn_populate projects workflows analyses c p
  · intro w hfind hdev
    have hcol : columnOf (workflows.find? (fun v => v.project_id == p.id)) =
        some ColName.development := by
      rw [hfind]; exact columnOf_eq_of_phase w hdev
    constructor
    · rw [projIn_populate, hcol]; simp
    · intro c hc
      rw [projIn_populate, hcol] at hc
      have := hc.2
      injection this with h
      exact h.symm

/-- C9: a project with no workflow record is handled through the fallbacks
`workflow?.current_phase || "Requirements Analysis"` and
`workflow?.status || "analyzing"`, and is therefore always placed in the
requirements column and in no other column. -/
theorem kanban_no_workflow_requirements (projects : List Project)
    (workflows : List Workflow) (analyses : List Analysis) (p : Project)
    (hfind : workflows.find? (fun w => w.project_id == p.id) = none) :
    effectivePhase none = "Requirements Analysis" ∧
    jsOr ((none : Option Workflow).map Workflow.status) "analyzing" = "analyzing" ∧
    (∀ c : ColName,
        projIn (populateKanbanBoard projects workflows analyses) c p ↔
          p ∈ projects ∧ c = ColName.requirements) := by
  refine ⟨rfl, rfl, ?_⟩
  intro c
  rw [projIn_populate, hfind, columnOf_none_phase]
  constructor
  · rintro ⟨hp, hc⟩; injection hc with hc; exact ⟨hp, hc.symm⟩
  · rintro ⟨hp, rfl⟩; exact ⟨hp, rfl⟩

/-- C10 as stated is false: a workflow whose `current_phase` is the empty
string (not one of the five phase names) and whose status is not
"completed" is not dropped from the board — the JavaScript `||` fallback
treats the empty (falsy) phase as missing, so the project lands in the
requirements column. -/
theorem kanban_dropped_counterexample :
    let p : Project := { id := "p1", project_name := "demo", status := "submitted",
                         created_at := 0 }
    let w : Workflow := { project_id := "p1", current_phase := "", status := "running",
                          progress := 10, created_at := 0, updated_at := 0 }
    w.current_phase ∉ phases ∧ w.status ≠ "completed" ∧
      projIn (populateKanbanBoard [p] [w] []) ColName.requirements p := by
  intro p w
  refine ⟨by decide, by decide, ?_⟩
  rw [projIn_populate]
  constructor
  · simp
  · have : [w].find? (fun v => v.project_id == p.id) = some w := by decide
    rw [this]
    simp [columnOf, effectivePhase, jsOr]

/-- C10 (amended): for a project whose workflow exists and whose
`current_phase` is none of the five phase names and also not the empty
string (which the JavaScript `||` fallback would replace), and whose status
is not "completed", the projection places the project in no column at all. -/
theorem kanban_dropped_when_phase_unknown (projects : List Project)
    (workflows : List Workflow) (analyses : List Analysis) (p : Project) (w : Workflow)
    (hfind : workflows.find? (fun v => v.project_id == p.id) = some w)
    (hphase : w.current_phase ∉ phases) (hempty : w.current_phase ≠ "")
    (hstatus : w.status ≠ "completed") :
    ∀ c : ColName, ¬ projIn (populateKanbanBoard projects workflows analyses) c p := by
  intro c hc
  rw [projIn_populate, hfind, columnOf_outside_phases w hphase hempty hstatus] at hc
  exact Option.noConfusion hc.2

lemma keyUniq_nil {α : Type} (key : α → String) : keyUniq key [] := List.Pairwise.nil

lemma find?_eq_some_of_mem {α : Type} {key : α → String} {l : List α} {a : α} {k : String}
    (hu : keyUniq key l) (ha : a ∈ l) (hk : key a = k) :
    l.find? (fun x => key x == k) = some a := by
  induction l with
  | nil => cases ha
  | cons b l ih =>
    cases hu with
    | cons hb hl =>
      rcases List.mem_cons.mp ha with rfl | ha
      · exact List.find?_cons_of_pos _ (by simp [hk])
      · have hne : key b ≠ key a := hb a ha
        rw [List.find?_cons_of_neg _ (by simp [hk ▸ hne]), ih hl ha]

lemma find?_map_of_preserve {α : Type} {l : List α} {f : α → α} {p : α → Bool}
    (h : ∀ x ∈ l, p (f x) = p x) :
    (l.map f).find? p = (l.find? p).map f := by
  induction l with
  | nil => rfl
  | cons b l ih =>
    rw [List.map_cons]
    by_cases hb : p b = true
    · rw [List.find?_cons_of_pos _ ((h b (by simp)).trans hb),
        List.find?_cons_of_pos _ hb]
      rfl
    · rw [List.find?_cons_of_neg _ (by simp [(h b (by simp)).trans (eq_false_of_ne_true hb)]),
        List.find?_cons_of_neg _ (by simp [eq_false_of_ne_true hb]),
        ih (fun x hx => h x (by simp [hx]))]

lemma keyUniq_map_of_mem {α : Type} {key : α → String} {l : List α} {f : α → α}
    (h : ∀ x ∈ l, key (f x) = key x) (hu : keyUniq key l) : keyUniq key (l.map f) := by
  induction l with
  | nil => exact List.Pairwise.nil
  | cons b l ih =>
    cases hu with
    | cons hb hl =>
      refine List.Pairwise.cons ?_ (ih (fun x hx => h x (by simp [hx])) hl)
      intro y hy
      obtain ⟨x, hx, rfl⟩ := List.mem_map.mp hy
      rw [h b (by simp), h x (by simp [hx])]
      exact hb x hx

lemma keyUniq_filter {α : Type} {key : α → String} {l : List α} {q : α → Bool}
    (hu : keyUniq key l) : keyUniq key (l.filter q) :=
  hu.sublist (List.filter_sublist l)

lemma keyUniq_append_singleton {α : Type} {key : α → String} {l : List α} {a : α}
    (hu : keyUniq key l) (hfresh : ∀ x ∈ l, key x ≠ key a) : keyUniq key (l ++ [a]) :=
  List.pairwise_append.mpr ⟨hu, List.pairwise_singleton _ a,
    fun x hx y hy => by rw [List.mem_singleton] at hy; subst hy; exact hfresh x hx⟩

lemma eq_of_mem_keyUniq {α : Type} {key : α → String} {l : List α} {a b : α}
    (hu : keyUniq key l) (ha : a ∈ l) (hb : b ∈ l) (hk : key a = key b) : a = b := by
  induction l with
  | nil => cases ha
  | cons c l ih =>
    cases hu with
    | cons hc hl =>
      rcases List.mem_cons.mp ha with rfl | ha'
      · rcases List.mem_cons.mp hb with rfl | hb'
        · rfl
        · exact absurd hk (hc b hb')
      · rcases List.mem_cons.mp hb with rfl | hb'
        · exact absurd hk.symm (hc a ha')
        · exact ih hl ha' hb'

lemma advanceWorkflow_project_id (v : Workflow) (target : String) (now : Nat) :
    (advanceWorkflow v target now).project_id = v.project_id := rfl

lemma advanceWorkflow_phase (v : Workflow) (target : String) (now : Nat) :
    (advanceWorkflow v target now).current_phase = target := rfl

lemma advance_update_key (pid target : String) (now : Nat) (v : Workflow) :
    ((if v.project_id == pid then advanceWorkflow v target now else v).project_id == pid) =
      (v.project_id == pid) := by
  by_cases hv : (v.project_id == pid) = true <;> simp [hv, advanceWorkflow]

lemma advancePhase_ok_iff {s : Store} {pid target : String} {now : Nat} {s' : Store} :
    advancePhase s pid target now = .ok s' ↔
      ∃ w, findWorkflow s pid = some w ∧
        (nextPhase w.current_phase = some target ∨ target = "Human Approval") ∧
        s' = advanceStore s pid target now := by
  unfold advancePhase
  cases h : findWorkflow s pid with
  | none => simp
  | some w =>
    dsimp only
    split_ifs with hc
    · simp [hc, eq_comm]
    · simp [hc]

lemma advanceStore_projects (s : Store) (pid target : String) (now : Nat) :
    (advanceStore s pid target now).projects = s.projects := rfl

lemma advanceStore_analyses (s : Store) (pid target : String) (now : Nat) :
    (advanceStore s pid target now).analyses = s.analyses := rfl

lemma findWorkflow_advanceStore (s : Store) (pid target : String) (now : Nat) :
    findWorkflow (advanceStore s pid target now) pid =
      (findWorkflow s pid).map (fun v => advanceWorkflow v target now) := by
  show (s.workflows.map _).find? _ = _
  rw [find?_map_of_preserve (fun v hv => advance_update_key pid target now v)]
  unfold findWorkflow
  cases h : s.workflows.find? (fun v => v.project_id == pid) with
  | none => rfl
  | some w =>
    have hkey := List.find?_some h
    simp only [] at hkey
    simp [beq_iff_eq.mp hkey]

lemma createProject_ok {s : Store} {pid name : String} {now : Nat} {p : Project} {s' : Store}
    (h : createProject s pid name now = .ok (p, s')) :
    s'.workflows = s.workflows ∧ s'.analyses = s.analyses ∧
      s'.projects = s.projects ++ [p] ∧ p.id = pid := by
  unfold createProject at h
  split_ifs at h
  simp only [Except.ok.injEq, Prod.mk.injEq] at h
  obtain ⟨rfl, rfl⟩ := h
  exact ⟨rfl, rfl, rfl, rfl⟩

lemma createWorkflow_ok {s : Store} {pid : String} {now : Nat} {w : Workflow} {s' : Store}
    (h : createWorkflow s pid now = .ok (w, s')) :
    findWorkflow s pid = none ∧
      w = { project_id := pid, current_phase := "Requirements Analysis",
            status := "analyzing", progress := 10, created_at := now, updated_at := now } ∧
      s'.projects = s.projects ∧ s'.analyses = s.analyses ∧
      s'.workflows = s.workflows ++ [w] := by
  unfold createWorkflow at h
  cases hf : findWorkflow s pid with
  | some v => rw [hf] at h; cases h
  | none =>
    rw [hf] at h
    simp only [Except.ok.injEq, Prod.mk.injEq] at h
    obtain ⟨rfl, rfl⟩ := h
    exact ⟨by simp [hf], rfl, rfl, rfl, rfl⟩

lemma deleteProject_ok {s : Store} {pid : String} {s' : Store}
    (h : deleteProject s pid = .ok s') :
    s' = { projects := s.projects.filter (fun p => p.id != pid)
           workflows := s.workflows.filter (fun w => w.project_id != pid)
           analyses := s.analyses.filter (fun a => a.project_id != pid) } := by
  unfold deleteProject at h
  split_ifs at h
  simp only [Except.ok.injEq] at h
  exact h.symm

lemma deleteProject_absent {s : Store} {pid : String}
    (h : ∀ p ∈ s.projects, p.id ≠ pid) :
    deleteProject s pid = .error .NotFoundError := by
  unfold deleteProject
  have hany : s.projects.any (fun p => p.id == pid) = false := by
    rw [List.any_eq_false]
    intro p hp
    simp [h p hp]
  rw [hany]
  simp

lemma submitDecision_notFound {s : Store} {aid d fb actor : String} {now : Nat}
    (h : findAnalysisById s aid = none) :
    submitDecision s aid d fb actor now = .error .NotFoundError := by
  unfold submitDecision
  rw [h]

lemma submitDecision_invalidState {s : Store} {aid d fb actor : String} {now : Nat}
    {a : Analysis} (hfind : findAnalysisById s aid = some a)
    (hst : ¬(a.status = "pending" ∨ a.status = "rework")) :
    submitDecision s aid d fb actor now = .error .InvalidStateError := by
  unfold submitDecision
  rw [hfind]
  simp [hst]

lemma submitDecision_approve_eq {s : Store} {aid : String} (fb actor : String) (now : Nat)
    {a : Analysis} (hfind : findAnalysisById s aid = some a)
    (hst : a.status = "pending" ∨ a.status = "rework") :
    submitDecision s aid "approve" fb actor now =
      match advancePhase (setAnalysis s aid { a with status := "approved" })
          a.project_id "Development" now with
      | .ok s1 => .ok ({ a with status := "approved" }, s1)
      | .error e => .error e := by
  unfold submitDecision
  rw [hfind]
  simp [hst]

lemma submitDecision_reject_eq {s : Store} {aid : String} (fb actor : String) (now : Nat)
    {a : Analysis} (hfind : findAnalysisById s aid = some a)
    (hst : a.status = "pending" ∨ a.status = "rework") :
    submitDecision s aid "reject" fb actor now =
      .ok ({ a with status := "rejected" },
        setProjectStatus (setAnalysis s aid { a with status := "rejected" })
          a.project_id "rejected") := by
  unfold submitDecision
  rw [hfind]
  simp [hst]

lemma submitDecision_rework_eq {s : Store} {aid : String} (fb actor : String) (now : Nat)
    {a : Analysis} (hfind : findAnalysisById s aid = some a)
    (hst : a.status = "pending" ∨ a.status = "rework") :
    submitDecision s aid "rework" fb actor now =
      match advancePhase (setAnalysis s aid { a with
            status := "rework"
            rework_history := a.rework_history ++
              [{ action := "rework", actor := actor, feedback := fb, timestamp := now }] })
          a.project_id "Human Approval" now with
      | .ok s1 => .ok ({ a with
          status := "rework"
          rework_history := a.rework_history ++
            [{ action := "rework", actor := actor, feedback := fb, timestamp := now }] }, s1)
      | .error e => .error e := by
  unfold submitDecision
  rw [hfind]
  simp [hst]

lemma submitDecision_validation {s : Store} {aid d fb actor : String} {now : Nat}
    {a : Analysis} (hfind : findAnalysisById s aid = some a)
    (hst : a.status = "pending" ∨ a.status = "rework")
    (hd1 : d ≠ "approve") (hd2 : d ≠ "reject") (hd3 : d ≠ "rework") :
    submitDecision s aid d fb actor now = .error .ValidationError := by
  unfold submitDecision
  rw [hfind]
  simp [hst, hd1, hd2, hd3]

lemma setAnalysis_workflows (s : Store) (aid : String) (a : Analysis) :
    (setAnalysis s aid a).workflows = s.workflows := rfl

lemma findWorkflow_setAnalysis (s : Store) (aid pid : String) (a : Analysis) :
    findWorkflow (setAnalysis s aid a) pid = findWorkflow s pid := rfl

lemma findAnalysisById_set {s : Store} {aid : String} {a a1 : Analysis}
    (hfind : findAnalysisById s aid = some a) (hid : a1.id = a.id) :
    findAnalysisById (setAnalysis s aid a1) aid = some a1 := by
  have hfind' : s.analyses.find? (fun b => b.id == aid) = some a := hfind
  have haid := List.find?_some hfind'
  simp only [] at haid
  have haid' : a.id = aid := by simpa using haid
  show (s.analyses.map _).find? _ = _
  rw [find?_map_of_preserve (fun b hb => ?_)]
  · rw [hfind']
    simp [haid']
  · by_cases hb1 : (b.id == aid) = true
    · simp [hb1, hid, haid']
    · simp [eq_false_of_ne_true hb1]

lemma phaseIdx_nextPhase {p q : String} (h : nextPhase p = some q) :
    phaseIdx q = phaseIdx p + 1 := by
  unfold nextPhase at h
  split at h <;> simp_all [phaseIdx] <;> (rw [← h]; rfl)

lemma nextPhase_target_dev {p : String} (h : nextPhase p = some "Development") :
    p = "Human Approval" := by
  unfold nextPhase at h
  split at h <;> simp_all

lemma nextPhase_target_testing {p : String} (h : nextPhase p = some "Testing") :
    p = "Development" := by
  unfold nextPhase at h
  split at h <;> simp_all

lemma nextPhase_target_deployment {p : String} (h : nextPhase p = some "Deployment") :
    p = "Testing" := by
  unfold nextPhase at h
  split at h <;> simp_all

lemma advance_update_pid (pid target : String) (now : Nat) (v : Workflow) :
    (if v.project_id == pid then advanceWorkflow v target now else v).project_id =
      v.project_id := by
  split <;> rfl

lemma advanceStore_wfU {s : Store} {pid target : String} {now : Nat}
    (h : keyUniq Workflow.project_id s.workflows) :
    keyUniq Workflow.project_id (advanceStore s pid target now).workflows :=
  keyUniq_map_of_mem (fun v hv => advance_update_pid pid target now v) h

lemma advanceStore_mem_same {s : Store} {pid target : String} {now : Nat} {v : Workflow}
    (hv : v ∈ s.workflows) (hne : v.project_id ≠ pid) :
    v ∈ (advanceStore s pid target now).workflows := by
  show v ∈ s.workflows.map _
  exact List.mem_map.mpr ⟨v, hv, by simp [hne]⟩

lemma advanceStore_mem_adv {s : Store} {pid target : String} {now : Nat} {v : Workflow}
    (hv : v ∈ s.workflows) (heq : v.project_id = pid) :
    advanceWorkflow v target now ∈ (advanceStore s pid target now).workflows := by
  show advanceWorkflow v target now ∈ s.workflows.map _
  exact List.mem_map.mpr ⟨v, hv, by simp [heq]⟩

lemma analysisWorkflowOk_advance_ne {s : Store} {pid target : String} {now : Nat}
    {a : Analysis} (h : analysisWorkflowOk s.workflows a) (hne : a.project_id ≠ pid) :
    analysisWorkflowOk (advanceStore s pid target now).workflows a := by
  obtain ⟨w, hw, hpid, h1, h2⟩ := h
  exact ⟨w, advanceStore_mem_same hw (hpid ▸ hne), hpid, h1, h2⟩

lemma analysisWorkflowOk_filter_ne {ws : List Workflow} {pid : String}
    {a : Analysis} (h : analysisWorkflowOk ws a) (hne : a.project_id ≠ pid) :
    analysisWorkflowOk (ws.filter (fun w => w.project_id != pid)) a := by
  obtain ⟨w, hw, hpid, h1, h2⟩ := h
  refine ⟨w, List.mem_filter.mpr ⟨hw, ?_⟩, hpid, h1, h2⟩
  simp [hpid ▸ hne]

lemma analysisWorkflowOk_append {ws : List Workflow} {v : Workflow}
    {a : Analysis} (h : analysisWorkflowOk ws a) :
    analysisWorkflowOk (ws ++ [v]) a := by
  obtain ⟨w, hw, hpid, h1, h2⟩ := h
  exact ⟨w, List.mem_append_left _ hw, hpid, h1, h2⟩

lemma recordAnalysisResult_ok {s : Store} {pid aid content : String} {now : Nat} {s' : Store}
    (h : recordAnalysisResult s pid aid content now = .ok s') :
    ∃ s1, advancePhase s pid "Human Approval" now = .ok s1 ∧
      ((∃ a, findAnalysisByProject s1 pid = some a ∧
          s' = { s1 with analyses := s1.analyses.map (fun b =>
            if b.project_id == pid then
              { a with content := content, status := "pending", timestamp := now }
            else b) }) ∨
        (findAnalysisByProject s1 pid = none ∧ (∀ b ∈ s1.analyses, b.id ≠ aid) ∧
          s' = { s1 with analyses := s1.analyses ++
            [{ id := aid, project_id := pid, content := content, status := "pending",
               rework_history := [], timestamp := now }] })) := by
  unfold recordAnalysisResult at h
  cases hadv : advancePhase s pid "Human Approval" now with
  | error e => rw [hadv] at h; cases h
  | ok s1 =>
    rw [hadv] at h
    dsimp only at h
    refine ⟨s1, rfl, ?_⟩
    cases hfind : findAnalysisByProject s1 pid with
    | some a =>
      rw [hfind] at h
      dsimp only at h
      simp only [Except.ok.injEq] at h
      exact .inl ⟨a, rfl, h.symm⟩
    | none =>
      rw [hfind] at h
      dsimp only at h
      split_ifs at h with hany
      simp only [Except.ok.injEq] at h
      refine .inr ⟨rfl, ?_, h.symm⟩
      intro b hb
      have hall : ∀ x ∈ s1.analyses, ¬x.id = aid := by simpa using hany
      exact hall b hb

lemma StoreInv_createProject {s : Store} {pid name : String} {now : Nat} {p : Project}
    {s' : Store} (hi : StoreInv s) (h : createProject s pid name now = .ok (p, s')) :
    StoreInv s' := by
  obtain ⟨hw, ha, hp, hid⟩ := createProject_ok h
  constructor
  · rw [hw]; exact hi.wfU
  · rw [ha]; exact hi.anIdU
  · rw [ha]; exact hi.anPidU
  · intro a hamem
    rw [ha] at hamem
    rw [hw]
    exact hi.anWf a hamem

lemma StoreInv_createWorkflow {s : Store} {pid : String} {now : Nat} {w : Workflow}
    {s' : Store} (hi : StoreInv s) (h : createWorkflow s pid now = .ok (w, s')) :
    StoreInv s' := by
  obtain ⟨hnone, hw, hp, ha, hws⟩ := createWorkflow_ok h
  have hwpid : w.project_id = pid := by rw [hw]
  constructor
  · rw [hws]
    refine keyUniq_append_singleton hi.wfU ?_
    intro x hx
    have := List.find?_eq_none.mp hnone x hx
    rw [hwpid]
    simpa using this
  · rw [ha]; exact hi.anIdU
  · rw [ha]; exact hi.anPidU
  · intro a hamem
    rw [ha] at hamem
    rw [hws]
    exact analysisWorkflowOk_append (hi.anWf a hamem)

lemma StoreInv_delete {s : Store} {pid : String} {s' : Store}
    (hi : StoreInv s) (h : deleteProject s pid = .ok s') : StoreInv s' := by
  have hs := deleteProject_ok h
  subst hs
  constructor
  · exact keyUniq_filter hi.wfU
  · exact keyUniq_filter hi.anIdU
  · exact keyUniq_filter hi.anPidU
  · intro a hamem
    obtain ⟨hmem, hne⟩ := List.mem_filter.mp hamem
    have hne' : a.project_id ≠ pid := by simpa using hne
    exact analysisWorkflowOk_filter_ne (hi.anWf a hmem) hne'

lemma StoreInv_agent {s s' : Store} {pid target : String} {now : Nat}
    (hi : StoreInv s) (ht : target = "Testing" ∨ target = "Deployment")
    (h : advancePhase s pid target now = .ok s') : StoreInv s' := by
  obtain ⟨w, hw, hval, rfl⟩ := advancePhase_ok_iff.mp h
  have hwmem : w ∈ s.workflows := List.mem_of_find?_eq_some hw
  have hwpid : w.project_id = pid := by
    have hb := List.find?_some hw
    simp only [] at hb
    exact beq_iff_eq.mp hb
  have hval' : nextPhase w.current_phase = some target := by
    rcases hval with hval | hval
    · exact hval
    · rcases ht with rfl | rfl <;> simp at hval
  constructor
  · exact advanceStore_wfU hi.wfU
  · exact hi.anIdU
  · exact hi.anPidU
  · intro a hamem
    by_cases hne : a.project_id = pid
    · obtain ⟨w0, hw0, hpid0, h1, h2⟩ := hi.anWf a hamem
      have hww : w0 = w := eq_of_mem_keyUniq hi.wfU hw0 hwmem (by rw [hpid0, hne, hwpid])
      subst hww
      refine ⟨advanceWorkflow w0 target now, advanceStore_mem_adv hw0 hwpid, ?_, ?_, ?_⟩
      · rw [advanceWorkflow_project_id, hpid0]
      · intro hpend
        have hHA := h1 hpend
        rw [hHA] at hval'
        have hdev : nextPhase "Human Approval" = some "Development" := rfl
        rw [hdev] at hval'
        rcases ht with rfl | rfl <;> simp at hval'
      · intro happ
        rw [advanceWorkflow_phase]
        rcases ht with rfl | rfl
        · exact .inr (.inl rfl)
        · exact .inr (.inr rfl)
    · exact analysisWorkflowOk_advance_ne (hi.anWf a hamem) hne

lemma StoreInv_record {s s' : Store} {pid aid content : String} {now : Nat}
    (hi : StoreInv s) (h : recordAnalysisResult s pid aid content now = .ok s') :
    StoreInv s' := by
  obtain ⟨s1, hadv, hcase⟩ := recordAnalysisResult_ok h
  obtain ⟨w, hw, hval, rfl⟩ := advancePhase_ok_iff.mp hadv
  have hwmem : w ∈ s.workflows := List.mem_of_find?_eq_some hw
  have hwpid : w.project_id = pid := by
    have hb := List.find?_some hw
    simp only [] at hb
    exact beq_iff_eq.mp hb
  have hwadv : advanceWorkflow w "Human Approval" now ∈
      (advanceStore s pid "Human Approval" now).workflows := advanceStore_mem_adv hwmem hwpid
  rcases hcase with ⟨a, hfind, rfl⟩ | ⟨hfind, hfresh, rfl⟩
  · have hfind' : s.analyses.find? (fun b => b.project_id == pid) = some a := hfind
    have hamem : a ∈ s.analyses := List.mem_of_find?_eq_some hfind'
    have hapid : a.project_id = pid := by
      have hb := List.find?_some hfind'
      simp only [] at hb
      exact beq_iff_eq.mp hb
    have hkeyid : ∀ b ∈ s.analyses,
        (if b.project_id == pid then
            { a with content := content, status := "pending", timestamp := now }
          else b).id = b.id := by
      intro b hb
      by_cases hbp : (b.project_id == pid) = true
      · have hba : b = a :=
          eq_of_mem_keyUniq hi.anPidU hb hamem (by rw [beq_iff_eq.mp hbp, hapid])
        subst hba
        simp [hbp]
      · simp [eq_false_of_ne_true hbp]
    have hkeypid : ∀ b ∈ s.analyses,
        (if b.project_id == pid then
            { a with content := content, status := "pending", timestamp := now }
          else b).project_id = b.project_id := by
      intro b hb
      by_cases hbp : (b.project_id == pid) = true
      · simp [hbp, hapid, beq_iff_eq.mp hbp]
      · simp [eq_false_of_ne_true hbp]
    constructor
    · exact advanceStore_wfU hi.wfU
    · exact keyUniq_map_of_mem hkeyid hi.anIdU
    · exact keyUniq_map_of_mem hkeypid hi.anPidU
    · intro b' hb'
      obtain ⟨b, hb, rfl⟩ := List.mem_map.mp hb'
      by_cases hbp : (b.project_id == pid) = true
      · rw [if_pos hbp]
        refine ⟨advanceWorkflow w "Human Approval" now, hwadv, ?_, fun _ => rfl, ?_⟩
        · show w.project_id = a.project_id
          rw [hwpid, hapid]
        · intro happ
          simp at happ
      · rw [if_neg hbp]
        have hbne : b.project_id ≠ pid := fun he => hbp (by simp [he])
        exact analysisWorkflowOk_advance_ne (hi.anWf b hb) hbne
  · have hnone : ∀ b ∈ s.analyses, ¬(b.project_id == pid) = true := by
      intro b hb
      exact List.find?_eq_none.mp hfind b hb
    constructor
    · exact advanceStore_wfU hi.wfU
    · exact keyUniq_append_singleton hi.anIdU (fun b hb => hfresh b hb)
    · refine keyUniq_append_singleton hi.anPidU ?_
      intro b hb
      have := hnone b hb
      simpa using this
    · intro b' hb'
      rcases List.mem_append.mp hb' with hb | hb
      · have hbne : b'.project_id ≠ pid := by
          have := hnone b' hb
          simpa using this
        exact analysisWorkflowOk_advance_ne (hi.anWf b' hb) hbne
      · rw [List.mem_singleton] at hb
        subst hb
        refine ⟨advanceWorkflow w "Human Approval" now, hwadv, ?_, fun _ => rfl, ?_⟩
        · show w.project_id = pid
          exact hwpid
        · intro happ
          simp at happ

lemma submitDecision_ok_cases {s : Store} {aid d fb actor : String} {now : Nat}
    {ares : Analysis} {s' : Store}
    (h : submitDecision s aid d fb actor now = .ok (ares, s')) :
    ∃ a, findAnalysisById s aid = some a ∧ (a.status = "pending" ∨ a.status = "rework") ∧
      ((d = "approve" ∧ ares = { a with status := "approved" } ∧
          advancePhase (setAnalysis s aid ares) a.project_id "Development" now = .ok s') ∨
       (d = "reject" ∧ ares = { a with status := "rejected" } ∧
          s' = setProjectStatus (setAnalysis s aid ares) a.project_id "rejected") ∨
       (d = "rework" ∧ ares = { a with
            status := "rework"
            rework_history := a.rework_history ++
              [{ action := "rework", actor := actor, feedback := fb, timestamp := now }] } ∧
          advancePhase (setAnalysis s aid ares) a.project_id "Human Approval" now = .ok s')) := by
  unfold submitDecision at h
  cases hfind : findAnalysisById s aid with
  | none => rw [hfind] at h; cases h
  | some a =>
    rw [hfind] at h
    dsimp only at h
    split_ifs at h with hst hd1 hd2 hd3
    · cases hadv : advancePhase (setAnalysis s aid { a with status := "approved" })
          a.project_id "Development" now with
      | error e => rw [hadv] at h; cases h
      | ok s1 =>
        rw [hadv] at h
        dsimp only at h
        simp only [Except.ok.injEq, Prod.mk.injEq] at h
        obtain ⟨rfl, rfl⟩ := h
        exact ⟨a, rfl, hst, .inl ⟨hd1, rfl, hadv⟩⟩
    · simp only [Except.ok.injEq, Prod.mk.injEq] at h
      obtain ⟨rfl, rfl⟩ := h
      exact ⟨a, rfl, hst, .inr (.inl ⟨hd2, rfl, rfl⟩)⟩
    · cases hadv : advancePhase (setAnalysis s aid { a with
            status := "rework"
            rework_history := a.rework_history ++
              [{ action := "rework", actor := actor, feedback := fb, timestamp := now }] })
          a.project_id "Human Approval" now with
      | error e => rw [hadv] at h; cases h
      | ok s1 =>
        rw [hadv] at h
        dsimp only at h
        simp only [Except.ok.injEq, Prod.mk.injEq] at h
        obtain ⟨rfl, rfl⟩ := h
        exact ⟨a, rfl, hst, .inr (.inr ⟨hd3, rfl, hadv⟩)⟩

lemma setAnalysis_pointwise {s : Store} {aid : String} {a : Analysis} (a1 : Analysis)
    (hIdU : keyUniq Analysis.id s.analyses) (hPidU : keyUniq Analysis.project_id s.analyses)
    (hfind : findAnalysisById s aid = some a) :
    ∀ b ∈ s.analyses,
      (b.project_id ≠ a.project_id ∧ (if b.id == aid then a1 else b) = b) ∨
      (b = a ∧ (if b.id == aid then a1 else b) = a1) := by
  intro b hb
  have hfind' : s.analyses.find? (fun x => x.id == aid) = some a := hfind
  have hamem : a ∈ s.analyses := List.mem_of_find?_eq_some hfind'
  have haid : a.id = aid := by
    have hx := List.find?_some hfind'
    simp only [] at hx
    exact beq_iff_eq.mp hx
  by_cases hbp : (b.id == aid) = true
  · have hba : b = a := eq_of_mem_keyUniq hIdU hb hamem (by rw [beq_iff_eq.mp hbp, haid])
    exact .inr ⟨hba, by rw [if_pos hbp]⟩
  · refine .inl ⟨?_, by rw [if_neg hbp]⟩
    intro hpe
    have hba : b = a := eq_of_mem_keyUniq hPidU hb hamem hpe
    exact hbp (by simp [hba, haid])

lemma StoreInv_decision {s s' : Store} {aid d fb actor : String} {now : Nat} {ares : Analysis}
    (hi : StoreInv s) (h : submitDecision s aid d fb actor now = .ok (ares, s')) :
    StoreInv s' := by
  obtain ⟨a, hfind, hst, hcases⟩ := submitDecision_ok_cases h
  have hfind' : s.analyses.find? (fun x => x.id == aid) = some a := hfind
  have hamem : a ∈ s.analyses := List.mem_of_find?_eq_some hfind'
  obtain ⟨w0, hw0, hw0pid, hw01, hw02⟩ := hi.anWf a hamem
  rcases hcases with ⟨hd, rfl, hadv⟩ | ⟨hd, rfl, rfl⟩ | ⟨hd, rfl, hadv⟩
  · -- approve
    obtain ⟨w, hwfind, hval, rfl⟩ := advancePhase_ok_iff.mp hadv
    have hwfind' : findWorkflow s a.project_id = some w := hwfind
    have hwmem : w ∈ s.workflows := List.mem_of_find?_eq_some hwfind'
    have hwpid : w.project_id = a.project_id := by
      have hx := List.find?_some hwfind'
      simp only [] at hx
      exact beq_iff_eq.mp hx
    have hpt := setAnalysis_pointwise { a with status := "approved" }
      hi.anIdU hi.anPidU hfind
    constructor
    · exact advanceStore_wfU hi.wfU
    · refine keyUniq_map_of_mem ?_ hi.anIdU
      intro b hb
      rcases hpt b hb with ⟨_, he⟩ | ⟨rfl, he⟩ <;> rw [he]
    · refine keyUniq_map_of_mem ?_ hi.anPidU
      intro b hb
      rcases hpt b hb with ⟨_, he⟩ | ⟨rfl, he⟩ <;> rw [he]
    · intro b' hb'
      obtain ⟨b, hb, rfl⟩ := List.mem_map.mp hb'
      rcases hpt b hb with ⟨hpne, he⟩ | ⟨rfl, he⟩
      · rw [he]
        exact analysisWorkflowOk_advance_ne (hi.anWf b hb) hpne
      · rw [he]
        refine ⟨advanceWorkflow w "Development" now, advanceStore_mem_adv hwmem hwpid,
          by rw [advanceWorkflow_project_id, hwpid], ?_, ?_⟩
        · intro hpend
          simp at hpend
        · intro _
          exact .inl rfl
  · -- reject
    have hpt := setAnalysis_pointwise { a with status := "rejected" }
      hi.anIdU hi.anPidU hfind
    constructor
    · exact hi.wfU
    · refine keyUniq_map_of_mem ?_ hi.anIdU
      intro b hb
      rcases hpt b hb with ⟨_, he⟩ | ⟨rfl, he⟩ <;> rw [he]
    · refine keyUniq_map_of_mem ?_ hi.anPidU
      intro b hb
      rcases hpt b hb with ⟨_, he⟩ | ⟨rfl, he⟩ <;> rw [he]
    · intro b' hb'
      obtain ⟨b, hb, rfl⟩ := List.mem_map.mp hb'
      rcases hpt b hb with ⟨hpne, he⟩ | ⟨rfl, he⟩
      · rw [he]
        exact hi.anWf b hb
      · rw [he]
        refine ⟨w0, hw0, hw0pid, ?_, ?_⟩
        · intro hpend
          simp at hpend
        · intro happ
          simp at happ
  · -- rework
    obtain ⟨w, hwfind, hval, rfl⟩ := advancePhase_ok_iff.mp hadv
    have hwfind' : findWorkflow s a.project_id = some w := hwfind
    have hwmem : w ∈ s.workflows := List.mem_of_find?_eq_some hwfind'
    have hwpid : w.project_id = a.project_id := by
      have hx := List.find?_some hwfind'
      simp only [] at hx
      exact beq_iff_eq.mp hx
    have hpt := setAnalysis_pointwise { a with
        status := "rework"
        rework_history := a.rework_history ++
          [{ action := "rework", actor := actor, feedback := fb, timestamp := now }] }
      hi.anIdU hi.anPidU hfind
    constructor
    · exact advanceStore_wfU hi.wfU
    · refine keyUniq_map_of_mem ?_ hi.anIdU
      intro b hb
      rcases hpt b hb with ⟨_, he⟩ | ⟨rfl, he⟩ <;> rw [he]
    · refine keyUniq_map_of_mem ?_ hi.anPidU
      intro b hb
      rcases hpt b hb with ⟨_, he⟩ | ⟨rfl, he⟩ <;> rw [he]
    · intro b' hb'
      obtain ⟨b, hb, rfl⟩ := List.mem_map.mp hb'
      rcases hpt b hb with ⟨hpne, he⟩ | ⟨rfl, he⟩
      · rw [he]
        exact analysisWorkflowOk_advance_ne (hi.anWf b hb) hpne
      · rw [he]
        refine ⟨advanceWorkflow w "Human Approval" now, advanceStore_mem_adv hwmem hwpid,
          by rw [advanceWorkflow_project_id, hwpid], fun _ => rfl, ?_⟩
        intro happ
        simp at happ

/-- Every external step preserves the invariant. -/
lemma StoreInv_step {s s' : Store} (hi : StoreInv s) (hstep : Step s s') : StoreInv s' := by
  cases hstep with
  | project pid name now p h => exact StoreInv_createProject hi h
  | workflow pid now w h => exact StoreInv_createWorkflow hi h
  | record pid aid content now h => exact StoreInv_record hi h
  | decision aid d fb actor now a h => exact StoreInv_decision hi h
  | delete pid h => exact StoreInv_delete hi h
  | agent pid target now ht h => exact StoreInv_agent hi ht h

/-- Every reachable store satisfies the invariant. -/
lemma reachable_inv {s : Store} (hr : Reachable s) : StoreInv s := by
  induction hr with
  | init =>
    exact ⟨List.Pairwise.nil, List.Pairwise.nil, List.Pairwise.nil, fun a ha => absurd ha (by simp [emptyStore])⟩
  | step _ hstep ih => exact StoreInv_step ih hstep

/-- In a reachable store, a pending or rework analysis is retrievable by its
id and its project's workflow sits at Human Approval. -/
lemma pending_analysis_workflow {s : Store} (hr : Reachable s) {a : Analysis}
    (ha : a ∈ s.analyses) (hst : a.status = "pending" ∨ a.status = "rework") :
    findAnalysisById s a.id = some a ∧
      ∃ w, findWorkflow s a.project_id = some w ∧ w.current_phase = "Human Approval" := by
  have hi := reachable_inv hr
  constructor
  · exact find?_eq_some_of_mem hi.anIdU ha rfl
  · obtain ⟨w, hwmem, hwpid, h1, _⟩ := hi.anWf a ha
    exact ⟨w, find?_eq_some_of_mem hi.wfU hwmem hwpid, h1 hst⟩

lemma advanceStore_no_skip {s : Store} {pid target : String} {now : Nat}
    (hU : keyUniq Workflow.project_id s.workflows)
    {w1 : Workflow} (hfind : findWorkflow s pid = some w1)
    (hval : nextPhase w1.current_phase = some target ∨ target = "Human Approval") :
    ∀ w' ∈ (advanceStore s pid target now).workflows, ∀ w ∈ s.workflows,
      w'.project_id = w.project_id →
      w'.current_phase = w.current_phase ∨
      phaseIdx w'.current_phase = phaseIdx w.current_phase + 1 ∨
      w'.current_phase = "Human Approval" := by
  intro w' hw' w hw hpid
  obtain ⟨v, hv, rfl⟩ := List.mem_map.mp hw'
  have hw1mem : w1 ∈ s.workflows := List.mem_of_find?_eq_some hfind
  have hw1pid : w1.project_id = pid := by
    have hx := List.find?_some hfind
    simp only [] at hx
    exact beq_iff_eq.mp hx
  by_cases hvp : (v.project_id == pid) = true
  · rw [if_pos hvp] at hpid ⊢
    rw [advanceWorkflow_project_id] at hpid
    have hvw : v = w := eq_of_mem_keyUniq hU hv hw hpid
    subst hvw
    have hv1 : v = w1 :=
      eq_of_mem_keyUniq hU hv hw1mem (by rw [beq_iff_eq.mp hvp, hw1pid])
    rcases hval with hval | hval
    · refine .inr (.inl ?_)
      rw [advanceWorkflow_phase]
      rw [hv1]
      exact phaseIdx_nextPhase hval
    · refine .inr (.inr ?_)
      rw [advanceWorkflow_phase, hval]
  · rw [if_neg hvp] at hpid ⊢
    have hvw : v = w := eq_of_mem_keyUniq hU hv hw hpid
    subst hvw
    exact .inl rfl

/-- Across any single external step, each workflow either keeps its phase,
moves to the immediate successor, or re-enters Human Approval: no phase is
ever skipped. -/
lemma step_no_skip {s s' : Store} (hi : StoreInv s) (hstep : Step s s') :
    ∀ w' ∈ s'.workflows, ∀ w ∈ s.workflows, w'.project_id = w.project_id →
      w'.current_phase = w.current_phase ∨
      phaseIdx w'.current_phase = phaseIdx w.current_phase + 1 ∨
      w'.current_phase = "Human Approval" := by
  cases hstep with
  | project pid name now p h =>
    obtain ⟨hw, _, _, _⟩ := createProject_ok h
    intro w' hw' w hwm hpid
    rw [hw] at hw'
    exact .inl (congrArg Workflow.current_phase (eq_of_mem_keyUniq hi.wfU hw' hwm hpid))
  | workflow pid now wnew h =>
    obtain ⟨hnone, hwn, _, _, hws⟩ := createWorkflow_ok h
    intro w' hw' w hwm hpid
    rw [hws] at hw'
    rcases List.mem_append.mp hw' with hmem | hmem
    · exact .inl (congrArg Workflow.current_phase (eq_of_mem_keyUniq hi.wfU hmem hwm hpid))
    · rw [List.mem_singleton] at hmem
      subst hmem
      exfalso
      have h1 := List.find?_eq_none.mp hnone w hwm
      apply h1
      have hwpid : w.project_id = pid := by
        rw [← hpid, hwn]
      simp [hwpid]
  | record pid aid content now h =>
    obtain ⟨s1, hadv, hcase⟩ := recordAnalysisResult_ok h
    obtain ⟨w1, hw1, hval, rfl⟩ := advancePhase_ok_iff.mp hadv
    rcases hcase with ⟨a, _, rfl⟩ | ⟨_, _, rfl⟩ <;>
      exact fun w' hw' w hwm hpid => advanceStore_no_skip hi.wfU hw1 hval w' hw' w hwm hpid
  | decision aid d fb actor now ares h =>
    obtain ⟨a, hfind, hst, hcases⟩ := submitDecision_ok_cases h
    rcases hcases with ⟨_, rfl, hadv⟩ | ⟨_, rfl, rfl⟩ | ⟨_, rfl, hadv⟩
    · obtain ⟨w1, hw1, hval, rfl⟩ := advancePhase_ok_iff.mp hadv
      exact advanceStore_no_skip hi.wfU hw1 hval
    · intro w' hw' w hwm hpid
      exact .inl (congrArg Workflow.current_phase (eq_of_mem_keyUniq hi.wfU hw' hwm hpid))
    · obtain ⟨w1, hw1, hval, rfl⟩ := advancePhase_ok_iff.mp hadv
      exact advanceStore_no_skip hi.wfU hw1 hval
  | delete pid h =>
    have hs := deleteProject_ok h
    subst hs
    intro w' hw' w hwm hpid
    have hmem := (List.mem_filter.mp hw').1
    exact .inl (congrArg Workflow.current_phase (eq_of_mem_keyUniq hi.wfU hmem hwm hpid))
  | agent pid target now ht h =>
    obtain ⟨w1, hw1, hval, rfl⟩ := advancePhase_ok_iff.mp h
    exact advanceStore_no_skip hi.wfU hw1 hval

/-- C2: in every reachable store, approving a pending Analysis succeeds,
sets its status to approved, advances the project's Workflow to the
Development phase, and the dashboard projection then places the project in
the development column and in no other. -/
theorem approve_pending_advances_to_development {s : Store} (hr : Reachable s)
    {a : Analysis} (ha : a ∈ s.analyses) (hpend : a.status = "pending")
    (fb actor : String) (now : Nat) :
    ∃ s', submitDecision s a.id "approve" fb actor now =
        .ok ({ a with status := "approved" }, s') ∧
      (∃ w', getWorkflow s' a.project_id = .ok w' ∧ w'.current_phase = "Development") ∧
      findAnalysisById s' a.id = some { a with status := "approved" } ∧
      ∀ p ∈ s'.projects, p.id = a.project_id →
        ∀ c, projIn (populateKanbanBoard s'.projects s'.workflows s'.analyses) c p ↔
          c = ColName.development := by
  obtain ⟨hfind, w, hw, hHA⟩ := pending_analysis_workflow hr ha (.inl hpend)
  have heq := submitDecision_approve_eq fb actor now hfind (.inl hpend)
  have hadv : advancePhase (setAnalysis s a.id { a with status := "approved" })
      a.project_id "Development" now =
      .ok (advanceStore (setAnalysis s a.id { a with status := "approved" })
        a.project_id "Development" now) := by
    refine advancePhase_ok_iff.mpr ⟨w, hw, .inl ?_, rfl⟩
    rw [hHA]
    rfl
  refine ⟨_, by rw [heq, hadv], ?_, ?_, ?_⟩
  · refine ⟨advanceWorkflow w "Development" now, ?_, rfl⟩
    unfold getWorkflow
    rw [findWorkflow_advanceStore]
    have hw' : findWorkflow (setAnalysis s a.id { a with status := "approved" })
        a.project_id = some w := hw
    rw [hw']
    rfl
  · exact findAnalysisById_set hfind rfl
  · intro p hp hpid c
    rw [projIn_populate]
    have hfw : (advanceStore (setAnalysis s a.id { a with status := "approved" })
          a.project_id "Development" now).workflows.find?
        (fun v => v.project_id == p.id) = some (advanceWorkflow w "Development" now) := by
      rw [hpid]
      have := findWorkflow_advanceStore (setAnalysis s a.id { a with status := "approved" })
        a.project_id "Development" now
      unfold findWorkflow at this
      rw [this]
      have hw' : (setAnalysis s a.id { a with status := "approved" }).workflows.find?
          (fun v => v.project_id == a.project_id) = some w := hw
      rw [hw']
      rfl
    rw [hfw, columnOf_eq_of_phase _ rfl]
    constructor
    · rintro ⟨_, hc⟩
      injection hc with hc
      exact hc.symm
    · rintro rfl
      exact ⟨hp, rfl⟩

/-- C3: a phase advance succeeds exactly when the target is the immediate
successor of the current phase or is the Human Approval re-entry, failing
with InvalidTransitionError on any other target, and consequently across
every external step from a reachable store each workflow's phase either
stays, moves forward by exactly one position, or re-enters Human Approval —
it never skips a phase. -/
theorem advancePhase_valid_transitions :
    (∀ (s : Store) (pid target : String) (now : Nat) (w : Workflow),
        findWorkflow s pid = some w →
        ((nextPhase w.current_phase = some target ∨ target = "Human Approval") →
          advancePhase s pid target now = .ok (advanceStore s pid target now)) ∧
        (¬(nextPhase w.current_phase = some target ∨ target = "Human Approval") →
          advancePhase s pid target now = .error .InvalidTransitionError)) ∧
    (∀ s s' : Store, Reachable s → Step s s' →
      ∀ w' ∈ s'.workflows, ∀ w ∈ s.workflows, w'.project_id = w.project_id →
        w'.current_phase = w.current_phase ∨
        phaseIdx w'.current_phase = phaseIdx w.current_phase + 1 ∨
        w'.current_phase = "Human Approval") := by
  constructor
  · intro s pid target now w hw
    constructor
    · intro hval
      exact advancePhase_ok_iff.mpr ⟨w, hw, hval, rfl⟩
    · intro hval
      unfold advancePhase
      rw [hw]
      simp [hval]
  · intro s s' hr hstep
    exact step_no_skip (reachable_inv hr) hstep

/-- C4: submitDecision fails with NotFoundError on an unknown analysis id,
with InvalidStateError when the analysis status is neither pending nor
rework, and in particular a second approve on the same analysis after a
first successful approve fails with InvalidStateError (the model returns
an error and commits no mutation). -/
theorem submitDecision_error_handling :
    (∀ (s : Store) (aid d fb actor : String) (now : Nat),
        findAnalysisById s aid = none →
        submitDecision s aid d fb actor now = .error .NotFoundError) ∧
    (∀ (s : Store) (aid d fb actor : String) (now : Nat) (a : Analysis),
        findAnalysisById s aid = some a →
        ¬(a.status = "pending" ∨ a.status = "rework") →
        submitDecision s aid d fb actor now = .error .InvalidStateError) ∧
    (∀ (s s' : Store) (aid fb actor fb' actor' : String) (now now' : Nat) (a1 : Analysis),
        submitDecision s aid "approve" fb actor now = .ok (a1, s') →
        submitDecision s' aid "approve" fb' actor' now' = .error .InvalidStateError) := by
  refine ⟨fun s aid d fb actor now h => submitDecision_notFound h,
    fun s aid d fb actor now a hfind hst => submitDecision_invalidState hfind hst, ?_⟩
  intro s s' aid fb actor fb' actor' now now' a1 h
  obtain ⟨a, hfind, hst, hcases⟩ := submitDecision_ok_cases h
  rcases hcases with ⟨_, rfl, hadv⟩ | ⟨hd, _, _⟩ | ⟨hd, _, _⟩
  · obtain ⟨w, hw, hval, rfl⟩ := advancePhase_ok_iff.mp hadv
    have hfind' : findAnalysisById
        (advanceStore (setAnalysis s aid { a with status := "approved" })
          a.project_id "Development" now) aid = some { a with status := "approved" } :=
      findAnalysisById_set hfind rfl
    exact submitDecision_invalidState hfind' (by simp)
  · exact absurd hd (by decide)
  · exact absurd hd (by decide)

/-- C5: in no reachable state is an Analysis approved while its project's
Workflow has not advanced at least to Development, and when the workflow
advance inside an approve decision fails, the whole submitDecision call
fails with that error — the analysis status change is not committed. -/
theorem decision_atomicity :
    (∀ s : Store, Reachable s → ∀ a ∈ s.analyses, a.status = "approved" →
        ∃ w ∈ s.workflows, w.project_id = a.project_id ∧
          (w.current_phase = "Development" ∨ w.current_phase = "Testing" ∨
            w.current_phase = "Deployment")) ∧
    (∀ (s : Store) (aid fb actor : String) (now : Nat) (a : Analysis) (e : Err),
        findAnalysisById s aid = some a → (a.status = "pending" ∨ a.status = "rework") →
        advancePhase (setAnalysis s aid { a with status := "approved" })
          a.project_id "Development" now = .error e →
        submitDecision s aid "approve" fb actor now = .error e) := by
  constructor
  · intro s hr a ha happ
    obtain ⟨w, hwmem, hwpid, _, h2⟩ := (reachable_inv hr).anWf a ha
    exact ⟨w, hwmem, hwpid, h2 happ⟩
  · intro s aid fb actor now a e hfind hst hadv
    rw [submitDecision_approve_eq fb actor now hfind hst, hadv]

/-- C6: in every reachable store, a rework decision on a pending or rework
Analysis succeeds, sets its status to rework, appends exactly one
rework_history entry, returns the Workflow to Human Approval; and the
subsequent recordAnalysisResult of the regenerated content leaves the
analysis pending again with exactly that one entry appended relative to the
state before the decision. -/
theorem rework_roundtrip {s : Store} (hr : Reachable s) {a : Analysis}
    (ha : a ∈ s.analyses) (hst : a.status = "pending" ∨ a.status = "rework")
    (fb actor : String) (now : Nat) (aid2 content2 : String) (now2 : Nat) :
    ∃ s1, submitDecision s a.id "rework" fb actor now =
        .ok ({ a with
          status := "rework"
          rework_history := a.rework_history ++
            [{ action := "rework", actor := actor, feedback := fb, timestamp := now }] }, s1) ∧
      (∃ w1, getWorkflow s1 a.project_id = .ok w1 ∧ w1.current_phase = "Human Approval") ∧
      ∃ s2, recordAnalysisResult s1 a.project_id aid2 content2 now2 = .ok s2 ∧
        ∃ a2, findAnalysisByProject s2 a.project_id = some a2 ∧
          a2.status = "pending" ∧
          a2.rework_history = a.rework_history ++
            [{ action := "rework", actor := actor, feedback := fb, timestamp := now }] := by
  have hi := reachable_inv hr
  have hfind : findAnalysisById s a.id = some a := find?_eq_some_of_mem hi.anIdU ha rfl
  obtain ⟨w, hwmem, hwpid, hw1, hw2⟩ := hi.anWf a ha
  have hw : findWorkflow s a.project_id = some w := find?_eq_some_of_mem hi.wfU hwmem hwpid
  have heq := submitDecision_rework_eq fb actor now hfind hst
  have hadv : advancePhase (setAnalysis s a.id { a with
        status := "rework"
        rework_history := a.rework_history ++
          [{ action := "rework", actor := actor, feedback := fb, timestamp := now }] })
      a.project_id "Human Approval" now =
      .ok (advanceStore (setAnalysis s a.id { a with
        status := "rework"
        rework_history := a.rework_history ++
          [{ action := "rework", actor := actor, feedback := fb, timestamp := now }] })
        a.project_id "Human Approval" now) :=
    advancePhase_ok_iff.mpr ⟨w, hw, .inr rfl, rfl⟩
  refine ⟨_, by rw [heq, hadv], ?_, ?_⟩
  · refine ⟨advanceWorkflow w "Human Approval" now, ?_, rfl⟩
    unfold getWorkflow
    rw [findWorkflow_advanceStore]
    have hwset : findWorkflow (setAnalysis s a.id { a with
        status := "rework"
        rework_history := a.rework_history ++
          [{ action := "rework", actor := actor, feedback := fb, timestamp := now }] })
        a.project_id = some w := hw
    rw [hwset]
    rfl
  · have hpfind : s.analyses.find? (fun b => b.project_id == a.project_id) = some a :=
      find?_eq_some_of_mem hi.anPidU ha rfl
    have hfind1 : findAnalysisByProject
        (advanceStore (setAnalysis s a.id { a with
          status := "rework"
          rework_history := a.rework_history ++
            [{ action := "rework", actor := actor, feedback := fb, timestamp := now }] })
          a.project_id "Human Approval" now)
        a.project_id = some { a with
          status := "rework"
          rework_history := a.rework_history ++
            [{ action := "rework", actor := actor, feedback := fb, timestamp := now }] } := by
      show (s.analyses.map _).find? _ = _
      rw [find?_map_of_preserve (fun b hb => ?_)]
      · rw [hpfind]
        simp
      · by_cases hbp : (b.id == a.id) = true
        · have hba : b = a := eq_of_mem_keyUniq hi.anIdU hb ha (beq_iff_eq.mp hbp)
          subst hba
          simp [hbp]
        · simp [eq_false_of_ne_true hbp]
    have hw1find : findWorkflow
        (advanceStore (setAnalysis s a.id { a with
          status := "rework"
          rework_history := a.rework_history ++
            [{ action := "rework", actor := actor, feedback := fb, timestamp := now }] })
          a.project_id "Human Approval" now)
        a.project_id = some (advanceWorkflow w "Human Approval" now) := by
      rw [findWorkflow_advanceStore]
      have hwset : findWorkflow (setAnalysis s a.id { a with
          status := "rework"
          rework_history := a.rework_history ++
            [{ action := "rework", actor := actor, feedback := fb, timestamp := now }] })
          a.project_id = some w := hw
      rw [hwset]
      rfl
    have hadv2 : advancePhase
        (advanceStore (setAnalysis s a.id { a with
          status := "rework"
          rework_history := a.rework_history ++
            [{ action := "rework", actor := actor, feedback := fb, timestamp := now }] })
          a.project_id "Human Approval" now)
        a.project_id "Human Approval" now2 =
        .ok (advanceStore
          (advanceStore (setAnalysis s a.id { a with
          status := "rework"
          rework_history := a.rework_history ++
            [{ action := "rework", actor := actor, feedback := fb, timestamp := now }] })
            a.project_id "Human Approval" now)
          a.project_id "Human Approval" now2) :=
      advancePhase_ok_iff.mpr
        ⟨advanceWorkflow w "Human Approval" now, hw1find, .inr rfl, rfl⟩
    have hfind2 : findAnalysisByProject
        (advanceStore (advanceStore (setAnalysis s a.id { a with
          status := "rework"
          rework_history := a.rework_history ++
            [{ action := "rework", actor := actor, feedback := fb, timestamp := now }] })
          a.project_id "Human Approval" now) a.project_id "Human Approval" now2)
        a.project_id = some { a with
          status := "rework"
          rework_history := a.rework_history ++
            [{ action := "rework", actor := actor, feedback := fb, timestamp := now }] } :=
      hfind1
    refine ⟨_, by
      unfold recordAnalysisResult
      rw [hadv2]
      dsimp only
      rw [hfind2], ?_⟩
    · refine ⟨{ a with
          content := content2
          status := "pending"
          timestamp := now2
          rework_history := a.rework_history ++
            [{ action := "rework", actor := actor, feedback := fb, timestamp := now }] }, ?_, rfl, rfl⟩
      show (((advanceStore (advanceStore (setAnalysis s a.id _) a.project_id "Human Approval" now)
          a.project_id "Human Approval" now2).analyses.map _).find? _) = _
      rw [find?_map_of_preserve (fun b hb => ?_)]
      · have hfind2' : ((advanceStore (advanceStore (setAnalysis s a.id { a with
            status := "rework"
            rework_history := a.rework_history ++
              [{ action := "rework", actor := actor, feedback := fb, timestamp := now }] })
            a.project_id "Human Approval" now) a.project_id "Human Approval" now2).analyses).find?
            (fun b => b.project_id == a.project_id) = some { a with
            status := "rework"
            rework_history := a.rework_history ++
              [{ action := "rework", actor := actor, feedback := fb, timestamp := now }] } := hfind2
        rw [hfind2']
        simp
      · by_cases hbp : (b.project_id == a.project_id) = true
        · simp [hbp]
        · simp [eq_false_of_ne_true hbp]

/-- C7: createWorkflow initializes phase Requirements Analysis, status
analyzing and progress 10, fails with ConflictError when the project
already has a workflow, and consequently every reachable store holds at
most one workflow per project. -/
theorem createWorkflow_init_and_unique :
    (∀ (s : Store) (pid : String) (now : Nat) (w : Workflow) (s' : Store),
        createWorkflow s pid now = .ok (w, s') →
        w.project_id = pid ∧ w.current_phase = "Requirements Analysis" ∧
          w.status = "analyzing" ∧ w.progress = 10) ∧
    (∀ (s : Store) (pid : String) (now : Nat) (w0 : Workflow),
        findWorkflow s pid = some w0 →
        createWorkflow s pid now = .error .ConflictError) ∧
    (∀ s : Store, Reachable s → ∀ w ∈ s.workflows, ∀ w' ∈ s.workflows,
        w.project_id = w'.project_id → w = w') := by
  refine ⟨?_, ?_, ?_⟩
  · intro s pid now w s' h
    obtain ⟨_, hw, _⟩ := createWorkflow_ok h
    subst hw
    exact ⟨rfl, rfl, rfl, rfl⟩
  · intro s pid now w0 hfind
    unfold createWorkflow
    rw [hfind]
  · intro s hr w hw w' hw' hpid
    exact eq_of_mem_keyUniq (reachable_inv hr).wfU hw hw' hpid

/-- C8: deleting an existing project cascades to its workflow and to all of
its analyses — both subsequent lookups report NotFoundError — while
deleting an unknown project id fails with NotFoundError (and, the
operation returning an error, commits nothing). -/
theorem deleteProject_cascades {s : Store} (hr : Reachable s) (pid : String) :
    ((∃ p ∈ s.projects, p.id = pid) →
      ∃ s', deleteProject s pid = .ok s' ∧
        getWorkflow s' pid = .error .NotFoundError ∧
        ∀ a ∈ s.analyses, a.project_id = pid →
          getAnalysis s' a.id = .error .NotFoundError) ∧
    ((∀ p ∈ s.projects, p.id ≠ pid) → deleteProject s pid = .error .NotFoundError) := by
  constructor
  · rintro ⟨p, hp, hpid⟩
    have hany : s.projects.any (fun q => q.id == pid) = true :=
      List.any_eq_true.mpr ⟨p, hp, by simp [hpid]⟩
    refine ⟨{ projects := s.projects.filter (fun q => q.id != pid)
              workflows := s.workflows.filter (fun w => w.project_id != pid)
              analyses := s.analyses.filter (fun b => b.project_id != pid) }, ?_, ?_, ?_⟩
    · unfold deleteProject
      rw [hany]
      rfl
    · unfold getWorkflow findWorkflow
      have hnone : (s.workflows.filter (fun w => w.project_id != pid)).find?
          (fun w => w.project_id == pid) = none := by
        rw [List.find?_eq_none]
        intro w hw
        have hne := (List.mem_filter.mp hw).2
        simp at hne ⊢
        exact hne
      rw [hnone]
    · intro a hamem hapid
      unfold getAnalysis findAnalysisById
      have hnone : (s.analyses.filter (fun b => b.project_id != pid)).find?
          (fun b => b.id == a.id) = none := by
        rw [List.find?_eq_none]
        intro b hb
        obtain ⟨hbmem, hbne⟩ := List.mem_filter.mp hb
        intro hbeq
        have hba : b = a := eq_of_mem_keyUniq (reachable_inv hr).anIdU hbmem hamem
          (by simpa using hbeq)
        subst hba
        rw [hapid] at hbne
        simp at hbne
      rw [hnone]
  · intro h
    exact deleteProject_absent h

lemma reachable_demoStore1 : Reachable demoStore1 :=
  Reachable.step Reachable.init (Step.project emptyStore demoStore1 "p1" "demo" 0 demoProject rfl)

lemma reachable_demoStore2 : Reachable demoStore2 :=
  Reachable.step reachable_demoStore1 (Step.workflow demoStore1 demoStore2 "p1" 0 demoWorkflowRA rfl)

lemma step_demo23 : Step demoStore2 demoStore3 :=
  Step.record demoStore2 demoStore3 "p1" "a1" "c" 1 rfl

lemma reachable_demoStore3 : Reachable demoStore3 :=
  Reachable.step reachable_demoStore2 step_demo23

lemma reachable_demoStore4 : Reachable demoStore4 :=
  Reachable.step reachable_demoStore3
    (Step.decision demoStore3 demoStore4 "a1" "approve" "" "human" 2 demoApproved rfl)

/-- Witness for the kanban placement theorem at a concrete board. -/
theorem kanban_placement_witness :
    projIn (populateKanbanBoard [demoProject] [demoWorkflowDev] []) ColName.development
      demoProject ∧
    ¬ projIn (populateKanbanBoard [demoProject] [demoWorkflowDev] []) ColName.requirements
      demoProject := by
  have h := kanban_placement_unique_and_development [demoProject] [demoWorkflowDev] []
    demoProject
  have hfind : [demoWorkflowDev].find? (fun w => w.project_id == demoProject.id) =
      some demoWorkflowDev := rfl
  have hdev := h.2.2 demoWorkflowDev hfind rfl
  refine ⟨hdev.1.mpr (List.mem_singleton.mpr rfl), fun hmem => ?_⟩
  exact absurd (hdev.2 ColName.requirements hmem) (by decide)

/-- Witness for the approve theorem on the concrete scenario store. -/
theorem approve_witness :
    ∃ s', submitDecision demoStore3 demoAnalysis.id "approve" "" "human" 2 =
        .ok ({ demoAnalysis with status := "approved" }, s') ∧
      (∃ w', getWorkflow s' demoAnalysis.project_id = .ok w' ∧
        w'.current_phase = "Development") ∧
      findAnalysisById s' demoAnalysis.id = some { demoAnalysis with status := "approved" } ∧
      ∀ p ∈ s'.projects, p.id = demoAnalysis.project_id →
        ∀ c, projIn (populateKanbanBoard s'.projects s'.workflows s'.analyses) c p ↔
          c = ColName.development :=
  approve_pending_advances_to_development reachable_demoStore3
    (List.mem_singleton.mpr rfl) rfl "" "human" 2

/-- Witness for the transition-validation theorem at concrete inputs. -/
theorem advance_witness :
    advancePhase demoStore3 "p1" "Development" 2 =
      .ok (advanceStore demoStore3 "p1" "Development" 2) ∧
    advancePhase demoStore3 "p1" "Deployment" 2 = .error Err.InvalidTransitionError ∧
    (demoWorkflowHA.current_phase = demoWorkflowRA.current_phase ∨
      phaseIdx demoWorkflowHA.current_phase = phaseIdx demoWorkflowRA.current_phase + 1 ∨
      demoWorkflowHA.current_phase = "Human Approval") := by
  have h := advancePhase_valid_transitions
  have hfind : findWorkflow demoStore3 "p1" = some demoWorkflowHA := rfl
  refine ⟨(h.1 demoStore3 "p1" "Development" 2 demoWorkflowHA hfind).1 (.inl rfl),
    (h.1 demoStore3 "p1" "Deployment" 2 demoWorkflowHA hfind).2 (by decide),
    h.2 demoStore2 demoStore3 reachable_demoStore2 step_demo23 demoWorkflowHA
      (List.mem_singleton.mpr rfl) demoWorkflowRA (List.mem_singleton.mpr rfl) rfl⟩

/-- Witness for the decision error-handling theorem at concrete inputs. -/
theorem decision_errors_witness :
    submitDecision demoStore3 "zz" "approve" "" "h" 2 = .error Err.NotFoundError ∧
    submitDecision demoStore4 "a1" "approve" "" "h" 3 = .error Err.InvalidStateError := by
  have h := submitDecision_error_handling
  exact ⟨h.1 demoStore3 "zz" "approve" "" "h" 2 rfl,
    h.2.2 demoStore3 demoStore4 "a1" "" "human" "" "h" 2 3 demoApproved rfl⟩

/-- Witness for the atomicity theorem at concrete inputs. -/
theorem atomicity_witness :
    (∃ w ∈ demoStore4.workflows, w.project_id = demoApproved.project_id ∧
      (w.current_phase = "Development" ∨ w.current_phase = "Testing" ∨
        w.current_phase = "Deployment")) ∧
    submitDecision demoStoreNoWorkflow "a1" "approve" "" "h" 2 =
      .error Err.NotFoundError := by
  have h := decision_atomicity
  refine ⟨h.1 demoStore4 reachable_demoStore4 demoApproved ?_ rfl, ?_⟩
  · show demoApproved ∈ [demoApproved]
    exact List.mem_singleton.mpr rfl
  · exact h.2 demoStoreNoWorkflow "a1" "" "h" 2 demoAnalysis Err.NotFoundError rfl
      (.inl rfl) rfl

/-- Witness for the rework round-trip theorem on the concrete scenario. -/
theorem rework_witness :
    ∃ s1, submitDecision demoStore3 demoAnalysis.id "rework" "fix X" "human" 2 =
        .ok ({ demoAnalysis with
          status := "rework"
          rework_history := demoAnalysis.rework_history ++
            [{ action := "rework", actor := "human", feedback := "fix X",
               timestamp := 2 }] }, s1) ∧
      (∃ w1, getWorkflow s1 demoAnalysis.project_id = .ok w1 ∧
        w1.current_phase = "Human Approval") ∧
      ∃ s2, recordAnalysisResult s1 demoAnalysis.project_id "a2" "c2" 3 = .ok s2 ∧
        ∃ a2, findAnalysisByProject s2 demoAnalysis.project_id = some a2 ∧
          a2.status = "pending" ∧
          a2.rework_history = demoAnalysis.rework_history ++
            [{ action := "rework", actor := "human", feedback := "fix X", timestamp := 2 }] :=
  rework_roundtrip reachable_demoStore3 (List.mem_singleton.mpr rfl) (.inl rfl)
    "fix X" "human" 2 "a2" "c2" 3

/-- Witness for the createWorkflow theorem at concrete inputs. -/
theorem createWorkflow_witness :
    (demoWorkflowRA.project_id = "p1" ∧
      demoWorkflowRA.current_phase = "Requirements Analysis" ∧
      demoWorkflowRA.status = "analyzing" ∧ demoWorkflowRA.progress = 10) ∧
    createWorkflow demoStore3 "p1" 5 = .error Err.ConflictError ∧
    demoWorkflowHA = demoWorkflowHA := by
  have h := createWorkflow_init_and_unique
  exact ⟨h.1 demoStore1 "p1" 0 demoWorkflowRA demoStore2 rfl,
    h.2.1 demoStore3 "p1" 5 demoWorkflowHA rfl,
    h.2.2 demoStore3 reachable_demoStore3 demoWorkflowHA (List.mem_singleton.mpr rfl)
      demoWorkflowHA (List.mem_singleton.mpr rfl) rfl⟩

/-- Witness for the delete-cascade theorem on the concrete scenario. -/
theorem delete_witness :
    (∃ s', deleteProject demoStore3 "p1" = .ok s' ∧
      getWorkflow s' "p1" = .error Err.NotFoundError ∧
      getAnalysis s' "a1" = .error Err.NotFoundError) ∧
    deleteProject demoStore3 "zz" = .error Err.NotFoundError := by
  obtain ⟨s', hdel, hw, ha⟩ := (deleteProject_cascades reachable_demoStore3 "p1").1
    ⟨demoProject, List.mem_singleton.mpr rfl, rfl⟩
  refine ⟨⟨s', hdel, hw, ?_⟩, ?_⟩
  · exact ha demoAnalysis (List.mem_singleton.mpr rfl) rfl
  · exact (deleteProject_cascades reachable_demoStore3 "zz").2 (by decide)

/-- Witness for the missing-workflow dashboard theorem at a concrete board. -/
theorem no_workflow_witness :
    effectivePhase none = "Requirements Analysis" ∧
    jsOr ((none : Option Workflow).map Workflow.status) "analyzing" = "analyzing" ∧
    projIn (populateKanbanBoard [demoProject] [] []) ColName.requirements demoProject := by
  have h := kanban_no_workflow_requirements [demoProject] [] [] demoProject rfl
  exact ⟨h.1, h.2.1, (h.2.2 ColName.requirements).mpr ⟨List.mem_singleton.mpr rfl, rfl⟩⟩

/-- Witness for the dropped-card theorem at a concrete board with a truthy
off-enum phase. -/
theorem dropped_witness :
    ¬ projIn (populateKanbanBoard [demoProject] [demoWorkflowBad] []) ColName.requirements
      demoProject ∧
    ¬ projIn (populateKanbanBoard [demoProject] [demoWorkflowBad] []) ColName.deployment
      demoProject := by
  have h := kanban_dropped_when_phase_unknown [demoProject] [demoWorkflowBad] [] demoProject
    demoWorkflowBad rfl (by decide) (by decide) (by decide)
  exact ⟨h ColName.requirements, h ColName.deployment⟩
